import Mathlib

/-!
Verification of `check_cluster.py` (cluster health-monitoring orchestrator).

This file shallowly embeds the parts of the program that the claims touch:

* the error tally (`ErrorInfo`), the deferred-check policy (`DEFER_LIST`),
  the single-report accumulation loop of `main` and the final
  `sys.exit(exec_errors > 0 or th_errors > 0)`;
* the per-line output demultiplexer of `Cluster.run_fa`, including the
  doubled-line re-scan regex `^(.*[^@])?<cluster>-([0-9]+):\s*(.*)$`
  (Python backtracking semantics: the greedy optional group selects the
  rightmost splittable occurrence), the `isi_rdo` deny-list check and the
  triple-line branch;
* the post-batch reporting of `run_fa` (`if result and ignore: ...`);
* `Cluster.regress_data` over exact rationals (floats are modelled as ℚ;
  the final `%15.6e` / `%.7f` display formatting is abstracted away, and
  the Pearson coefficient is represented by the pair (numerator, radicand)
  with real value `num / Real.sqrt radicand`), with the sample loop's
  positional `y[i]` access, Python's short-circuit `and`/`or` and every
  `/` division site modelled explicitly (`Option`, `none` = a raised
  IndexError or ZeroDivisionError);
* the report-destination failure handling of `open_logfile`,
  `open_summaryfile` and the remote log-mirror writes;
* `manage_pid_file` in its "check" and "start" modes.
-/

/-! ### Error tally, deferred-check policy and exit status
     (check_cluster.py lines 38-42, 1490-1541, 1878-1910, 1969-1970) -/

/-- The three accumulated totals of `error_info` in `main`. -/
structure ErrorInfo where
  exec_errors : Int
  th_errors : Int
  th_leaks : Int
deriving DecidableEq, Repr

/-- A check's result tuple `errors`: `errors[0]` (execution errors),
`errors[1]` (threshold errors) and the optional `errors[2]` (leaks),
present exactly when `len(errors) > 2`. -/
abbrev CheckOutcome := Int × Int × Option Int

/-- The literal `DEFER_LIST` dictionary (lines 38-42): check name to
justification list. -/
def DEFER_LIST : List (String × List String) :=
  [("node_fw", []),
   ("drive_fw", []),
   ("event_message_expand", ["Deferred until after pipeline release"])]

/-- Dictionary lookup `DEFER_LIST[name]`. -/
def deferLookup (name : String) : Option (List String) :=
  (DEFER_LIST.find? (fun p => p.1 == name)).map (fun p => p.2)

/-- The condition `func_name in DEFER_LIST and DEFER_LIST[func_name]`
(line 1902); an empty justification list is falsy in Python. -/
def deferActive (name : String) : Bool :=
  match deferLookup name with
  | some l => !l.isEmpty
  | none => false

/-- One iteration of the single-report check loop (lines 1901-1910):
execution and threshold errors accumulate only for non-deferred checks,
while `errors[2]` (leaks), when present, always accumulates. -/
def applyCheck (e : ErrorInfo) (c : String × CheckOutcome) : ErrorInfo :=
  let e1 :=
    if deferActive c.1 then e
    else { e with exec_errors := e.exec_errors + c.2.1,
                  th_errors := e.th_errors + c.2.2.1 }
  match c.2.2.2 with
  | some lk => { e1 with th_leaks := e1.th_leaks + lk }
  | none => e1

/-- The single-report check loop over a run's (check name, outcome) list,
starting from the tally already accumulated before the loop. -/
def run_checks (init : ErrorInfo) (cs : List (String × CheckOutcome)) : ErrorInfo :=
  cs.foldl applyCheck init

/-- The final `sys.exit(error_info['exec_errors'] > 0 or
error_info['th_errors'] > 0)` (line 1970): Python exits with status 1 on
`True` and 0 on `False`. -/
def mainExitCode (e : ErrorInfo) : Nat :=
  if 0 < e.exec_errors ∨ 0 < e.th_errors then 1 else 0

/-! Characterizations of `run_checks`, shared by several claims. -/

/-- Contribution of one check to the execution-error total. -/
def execContrib (c : String × CheckOutcome) : Int :=
  if deferActive c.1 then 0 else c.2.1

/-- Contribution of one check to the threshold-error total. -/
def thContrib (c : String × CheckOutcome) : Int :=
  if deferActive c.1 then 0 else c.2.2.1

/-- Contribution of one check to the leak total (never deferred). -/
def leakContrib (c : String × CheckOutcome) : Int :=
  (c.2.2.2).getD 0

lemma applyCheck_exec (e : ErrorInfo) (c : String × CheckOutcome) :
    (applyCheck e c).exec_errors = e.exec_errors + execContrib c := by
  unfold applyCheck execContrib
  rcases c with ⟨n, ex, th, lk⟩
  cases lk <;> by_cases h : deferActive n <;> simp [h]

lemma applyCheck_th (e : ErrorInfo) (c : String × CheckOutcome) :
    (applyCheck e c).th_errors = e.th_errors + thContrib c := by
  unfold applyCheck thContrib
  rcases c with ⟨n, ex, th, lk⟩
  cases lk <;> by_cases h : deferActive n <;> simp [h]

lemma applyCheck_leaks (e : ErrorInfo) (c : String × CheckOutcome) :
    (applyCheck e c).th_leaks = e.th_leaks + leakContrib c := by
  unfold applyCheck leakContrib
  rcases c with ⟨n, ex, th, lk⟩
  cases lk <;> by_cases h : deferActive n <;> simp [h]

lemma run_checks_exec (init : ErrorInfo) (cs : List (String × CheckOutcome)) :
    (run_checks init cs).exec_errors = init.exec_errors + (cs.map execContrib).sum := by
  induction cs generalizing init with
  | nil => simp [run_checks]
  | cons c tl ih =>
      simp only [run_checks, List.foldl_cons, List.map_cons, List.sum_cons]
      rw [show List.foldl applyCheck (applyCheck init c) tl = run_checks (applyCheck init c) tl from rfl,
        ih, applyCheck_exec]
      ring

lemma run_checks_th (init : ErrorInfo) (cs : List (String × CheckOutcome)) :
    (run_checks init cs).th_errors = init.th_errors + (cs.map thContrib).sum := by
  induction cs generalizing init with
  | nil => simp [run_checks]
  | cons c tl ih =>
      simp only [run_checks, List.foldl_cons, List.map_cons, List.sum_cons]
      rw [show List.foldl applyCheck (applyCheck init c) tl = run_checks (applyCheck init c) tl from rfl,
        ih, applyCheck_th]
      ring

lemma run_checks_leaks (init : ErrorInfo) (cs : List (String × CheckOutcome)) :
    (run_checks init cs).th_leaks = init.th_leaks + (cs.map leakContrib).sum := by
  induction cs generalizing init with
  | nil => simp [run_checks]
  | cons c tl ih =>
      simp only [run_checks, List.foldl_cons, List.map_cons, List.sum_cons]
      rw [show List.foldl applyCheck (applyCheck init c) tl = run_checks (applyCheck init c) tl from rfl,
        ih, applyCheck_leaks]
      ring

lemma run_checks_insert_exec (init : ErrorInfo) (cs1 cs2 : List (String × CheckOutcome))
    (c : String × CheckOutcome) :
    (run_checks init (cs1 ++ c :: cs2)).exec_errors =
      (run_checks init (cs1 ++ cs2)).exec_errors + execContrib c := by
  rw [run_checks_exec, run_checks_exec]
  simp only [List.map_append, List.map_cons, List.sum_append, List.sum_cons]
  ring

lemma run_checks_insert_th (init : ErrorInfo) (cs1 cs2 : List (String × CheckOutcome))
    (c : String × CheckOutcome) :
    (run_checks init (cs1 ++ c :: cs2)).th_errors =
      (run_checks init (cs1 ++ cs2)).th_errors + thContrib c := by
  rw [run_checks_th, run_checks_th]
  simp only [List.map_append, List.map_cons, List.sum_append, List.sum_cons]
  ring

lemma run_checks_insert_leaks (init : ErrorInfo) (cs1 cs2 : List (String × CheckOutcome))
    (c : String × CheckOutcome) :
    (run_checks init (cs1 ++ c :: cs2)).th_leaks =
      (run_checks init (cs1 ++ cs2)).th_leaks + leakContrib c := by
  rw [run_checks_leaks, run_checks_leaks]
  simp only [List.map_append, List.map_cons, List.sum_append, List.sum_cons]
  ring

/-- C1: In single-report mode the process exit status is non-zero iff the
accumulated execution-error total or the accumulated threshold-error total
is positive, and the accumulated leak total has no influence on the exit
status. -/
theorem exit_status_iff_errors :
    ∀ ex th lk lk2 : Int,
      (mainExitCode ⟨ex, th, lk⟩ ≠ 0 ↔ (0 < ex ∨ 0 < th)) ∧
      mainExitCode ⟨ex, th, lk⟩ = mainExitCode ⟨ex, th, lk2⟩ := by
  intro ex th lk lk2
  constructor
  · by_cases h : 0 < ex ∨ 0 < th <;> simp [mainExitCode, h]
  · rfl

/-- C4 counterexample: `node_fw` is listed in `DEFER_LIST` (with an empty
justification), yet a failing run of it drives the exit status to 1,
contradicting the claim that a failing check listed in the deferred policy
never makes the exit status non-zero. -/
theorem defer_empty_justification_counterexample :
    mainExitCode (run_checks ⟨0, 0, 0⟩ [("node_fw", (1, 0, none))]) ≠ 0 := by
  decide

/-- C4 (amended): a check whose `DEFER_LIST` entry has a *non-empty*
justification list still runs, but its execution-error and threshold-error
counts are not added to the totals, so it leaves the exit status unchanged;
its leak count (third tuple element), when present, is still added. -/
theorem deferred_check_excluded_from_totals
    (init : ErrorInfo) (cs1 cs2 : List (String × CheckOutcome))
    (name : String) (out : CheckOutcome)
    (h : deferActive name = true) :
    (run_checks init (cs1 ++ (name, out) :: cs2)).exec_errors =
      (run_checks init (cs1 ++ cs2)).exec_errors ∧
    (run_checks init (cs1 ++ (name, out) :: cs2)).th_errors =
      (run_checks init (cs1 ++ cs2)).th_errors ∧
    (run_checks init (cs1 ++ (name, out) :: cs2)).th_leaks =
      (run_checks init (cs1 ++ cs2)).th_leaks + (out.2.2).getD 0 ∧
    mainExitCode (run_checks init (cs1 ++ (name, out) :: cs2)) =
      mainExitCode (run_checks init (cs1 ++ cs2)) := by
  have hex := run_checks_insert_exec init cs1 cs2 (name, out)
  have hth := run_checks_insert_th init cs1 cs2 (name, out)
  have hlk := run_checks_insert_leaks init cs1 cs2 (name, out)
  rw [show execContrib (name, out) = 0 by simp [execContrib, h]] at hex
  rw [show thContrib (name, out) = 0 by simp [thContrib, h]] at hth
  refine ⟨by omega, by omega, by rw [hlk]; rfl, ?_⟩
  unfold mainExitCode
  rw [show (run_checks init (cs1 ++ (name, out) :: cs2)).exec_errors =
        (run_checks init (cs1 ++ cs2)).exec_errors by omega,
      show (run_checks init (cs1 ++ (name, out) :: cs2)).th_errors =
        (run_checks init (cs1 ++ cs2)).th_errors by omega]

/-- C4 witness: a failing `event_message_expand` (non-empty justification)
inserted into a run changes neither the error totals nor the exit status,
while its leak count is added. -/
theorem deferred_check_excluded_from_totals_witness :
    (run_checks ⟨0, 0, 0⟩ ([] ++ ("event_message_expand", ((3 : Int), (4 : Int), some 5)) :: [])).exec_errors =
      (run_checks ⟨0, 0, 0⟩ ([] ++ [])).exec_errors ∧
    (run_checks ⟨0, 0, 0⟩ ([] ++ ("event_message_expand", ((3 : Int), (4 : Int), some 5)) :: [])).th_errors =
      (run_checks ⟨0, 0, 0⟩ ([] ++ [])).th_errors ∧
    (run_checks ⟨0, 0, 0⟩ ([] ++ ("event_message_expand", ((3 : Int), (4 : Int), some 5)) :: [])).th_leaks =
      (run_checks ⟨0, 0, 0⟩ ([] ++ [])).th_leaks + (((3 : Int), (4 : Int), some (5 : Int)).2.2).getD 0 ∧
    mainExitCode (run_checks ⟨0, 0, 0⟩ ([] ++ ("event_message_expand", ((3 : Int), (4 : Int), some 5)) :: [])) =
      mainExitCode (run_checks ⟨0, 0, 0⟩ ([] ++ [])) :=
  deferred_check_excluded_from_totals ⟨0, 0, 0⟩ [] [] "event_message_expand"
    ((3 : Int), (4 : Int), some 5) (by decide)

/-- C10: a `DEFER_LIST` key with an empty justification list (`node_fw`,
`drive_fw`) is not treated as deferred — its execution and threshold errors
are added to the totals and can make the exit status non-zero; only
entries with a non-empty justification list are excluded. -/
theorem empty_justification_not_deferred :
    deferActive "node_fw" = false ∧
    deferActive "drive_fw" = false ∧
    (∀ (init : ErrorInfo) (cs1 cs2 : List (String × CheckOutcome))
       (name : String) (out : CheckOutcome),
       deferActive name = false →
       (run_checks init (cs1 ++ (name, out) :: cs2)).exec_errors =
         (run_checks init (cs1 ++ cs2)).exec_errors + out.1 ∧
       (run_checks init (cs1 ++ (name, out) :: cs2)).th_errors =
         (run_checks init (cs1 ++ cs2)).th_errors + out.2.1) ∧
    (∀ name justs, deferLookup name = some justs → (deferActive name = true ↔ justs ≠ [])) ∧
    mainExitCode (run_checks ⟨0, 0, 0⟩ [("drive_fw", (0, 2, none))]) = 1 := by
  refine ⟨by decide, by decide, ?_, ?_, by decide⟩
  · intro init cs1 cs2 name out h
    have hex := run_checks_insert_exec init cs1 cs2 (name, out)
    have hth := run_checks_insert_th init cs1 cs2 (name, out)
    rw [show execContrib (name, out) = out.1 by simp [execContrib, h]] at hex
    rw [show thContrib (name, out) = out.2.1 by simp [thContrib, h]] at hth
    exact ⟨hex, hth⟩
  · intro name justs h
    unfold deferActive
    rw [h]
    rcases justs with _ | ⟨a, tl⟩ <;> simp

/-- C10 witness: a failing `node_fw` adds its errors to the totals. -/
theorem empty_justification_not_deferred_witness :
    (run_checks ⟨0, 0, 0⟩ ([] ++ ("node_fw", ((1 : Int), (2 : Int), none)) :: [])).exec_errors =
      (run_checks ⟨0, 0, 0⟩ ([] ++ [])).exec_errors + ((1 : Int), (2 : Int), (none : Option Int)).1 ∧
    (run_checks ⟨0, 0, 0⟩ ([] ++ ("node_fw", ((1 : Int), (2 : Int), none)) :: [])).th_errors =
      (run_checks ⟨0, 0, 0⟩ ([] ++ [])).th_errors + ((1 : Int), (2 : Int), (none : Option Int)).2.1 :=
  empty_justification_not_deferred.2.2.1 ⟨0, 0, 0⟩ [] [] "node_fw"
    ((1 : Int), (2 : Int), none) (by decide)

/-! ### `Cluster.run_fa` output demultiplexing (lines 612-675)

Each output line (already split by `splitlines` and stripped of `"\r\n"`)
is parsed with `^<cluster_name>-([0-9]+):\s*(.*)$`; on success the rest of
the captured data is re-scanned with `^(.*[^@])?<cluster_name>-([0-9]+):\s*(.*)$`.
Python's backtracking makes the greedy optional group `(.*[^@])?` pick the
*largest* split position whose preceding character is not `'@'`; only if no
such position exists is the group left unmatched (`group(1) is None`,
rendered by `"%s" % None` as the string `"None"`). -/

/-- Python's `\s` character class (no newlines survive `splitlines`, but
the class is modelled in full). -/
def pyIsSpace (c : Char) : Bool :=
  c = ' ' ∨ c = '\t' ∨ c = '\n' ∨ c = '\x0b' ∨ c = '\x0c' ∨ c = '\r'

/-- Greedy `\s*` at the front of a string. -/
def stripWS : List Char → List Char
  | [] => []
  | c :: cs => if pyIsSpace c then stripWS cs else c :: cs

/-- Greedy `([0-9]+)`: maximal digit run and the remainder. -/
def takeDigits : List Char → List Char × List Char
  | [] => ([], [])
  | c :: cs =>
      if c.isDigit then
        let p := takeDigits cs
        (c :: p.1, p.2)
      else ([], c :: cs)

/-- Match a literal pattern at the front of a string, returning the rest. -/
def dropExact : List Char → List Char → Option (List Char)
  | [], s => some s
  | _ :: _, [] => none
  | a :: p, b :: s => if a = b then dropExact p s else none

/-- The anchored prefix pattern `<cn>-([0-9]+):\s*` at the front of a string:
returns the node-id digits and the data after `\s*`.  Backtracking note:
`([0-9]+):` matches exactly the maximal digit run followed by `':'`. -/
def matchNodeId (cn s : List Char) : Option (List Char × List Char) :=
  match dropExact (cn ++ ['-']) s with
  | none => none
  | some r =>
      let p := takeDigits r
      if p.1 = [] then none
      else
        match p.2 with
        | ':' :: rest => some (p.1, stripWS rest)
        | _ => none

/-- The backtracking search of `(.*[^@])?<cn>-([0-9]+):\s*(.*)$`: split
positions `e+1` are tried from the right; a position qualifies when the
character before it (index `e`) is not `'@'` and the prefix pattern matches
at it. -/
def reScanFrom (cn data : List Char) : Nat → Option (List Char × List Char × List Char)
  | 0 => none
  | e + 1 =>
      match data.get? e, matchNodeId cn (data.drop (e + 1)) with
      | some c, some pr =>
          if c = '@' then reScanFrom cn data e
          else some (data.take (e + 1), pr.1, pr.2)
      | _, _ => reScanFrom cn data e

/-- The full doubled-line re-scan `re.search(r'^(.*[^@])?<cn>-([0-9]+):\s*(.*)$', data)`:
first the group-present alternatives (largest split first), then the
group-absent alternative at position 0 (in which case `group(1)` is `None`). -/
def reScan (cn data : List Char) : Option (Option (List Char) × List Char × List Char) :=
  match reScanFrom cn data data.length with
  | some (g1, id2, rest) => some (some g1, id2, rest)
  | none =>
      match matchNodeId cn data with
      | some pr => some (none, pr.1, pr.2)
      | none => none

/-- Python's `"%s" % v` for the optional capture group: `None` renders as
the four characters `None`. -/
def pyStr : Option (List Char) → List Char
  | none => "None".toList
  | some s => s

/-- Python's `'isi_rdo' in data` substring test. -/
def isSub (p s : List Char) : Bool :=
  match s with
  | [] => p.isEmpty
  | _ :: tl => p.isPrefixOf s || isSub p tl

/-- The `out_dict`, as the per-node accumulated string (an absent key reads as
the empty accumulation). -/
def OutDict : Type := List Char → List Char

/-- The empty `out_dict = {}`. -/
def emptyOut : OutDict := fun _ => []

/-- The append `out_dict[k] += "%s\n" % v` (with `out_dict[k] = ""` first when the key
is absent). -/
def addOut (d : OutDict) (k v : List Char) : OutDict :=
  fun x => if x = k then d k ++ v ++ ['\n'] else d x

/-- One iteration of the line loop of `run_fa` (lines 612-674): skip blank
lines, skip (with an UNMATCHED LINE diagnostic) lines without the node
prefix, re-scan matched data for a doubled line unless the `isi_rdo`
deny-list substring is present, re-scan the doubled remainder for a triple
line; in the triple branch the appends sit inside the `if self.opt_info['debug']`
block (source lines 648-661), so they run only in debug mode — and they
append `prev_value`/`tripledata` from the *triple* re-scan, never the
doubled fragments. -/
def runFaLine (debug : Bool) (cn : List Char) (d : OutDict) (line : List Char) : OutDict :=
  if stripWS line = [] then d
  else
    match matchNodeId cn line with
    | none => d
    | some (node_id, data) =>
        match reScan cn data with
        | some (prev, dblId, dblData) =>
            if isSub "isi_rdo".toList data then
              addOut d node_id data
            else
              match reScan cn dblData with
              | some (prev2, trId, _trData) =>
                  if debug then addOut (addOut d node_id (pyStr prev2)) trId _trData
                  else d
              | none =>
                  addOut (addOut d node_id (pyStr prev)) dblId dblData
        | none => addOut d node_id data

/-- The whole-output loop `for line in out.splitlines(True)` restricted to
its attribution effect. -/
def runFaLines (debug : Bool) (cn : List Char) (d : OutDict) (lines : List (List Char)) : OutDict :=
  lines.foldl (runFaLine debug cn) d

/-- C2 counterexample: on the line `"cluster-1: data cluster-2: moredata"`
the code attributes `"data "` — the capture group of the re-scan includes
the separating space — to node 1, not `"data"` as the claim states. -/
theorem double_line_space_counterexample :
    (runFaLine false "cluster".toList emptyOut
        "cluster-1: data cluster-2: moredata".toList) "1".toList = "data \n".toList ∧
    ¬ ((runFaLine false "cluster".toList emptyOut
        "cluster-1: data cluster-2: moredata".toList) "1".toList = "data\n".toList) ∧
    (runFaLine false "cluster".toList emptyOut
        "cluster-1: data cluster-2: moredata".toList) "2".toList = "moredata\n".toList := by
  decide

/-- C3 (code bug evaluation): on a line with three node prefixes,
`"cluster-1: a cluster-2: b cluster-3: c"`, the greedy re-scan splits at
the *last* embedded prefix, so node 1 receives `"a cluster-2: b \n"`
(swallowing node 2's prefix and fragment), node 2 receives nothing, and
node 3 receives `"c\n"` — identically with debug off and on; the claimed
three-way split never happens (the triple branch is unreachable). -/
theorem triple_line_misattribution_eval :
    (runFaLine false "cluster".toList emptyOut
        "cluster-1: a cluster-2: b cluster-3: c".toList) "1".toList
      = "a cluster-2: b \n".toList ∧
    (runFaLine false "cluster".toList emptyOut
        "cluster-1: a cluster-2: b cluster-3: c".toList) "2".toList = [] ∧
    (runFaLine false "cluster".toList emptyOut
        "cluster-1: a cluster-2: b cluster-3: c".toList) "3".toList = "c\n".toList ∧
    (runFaLine true "cluster".toList emptyOut
        "cluster-1: a cluster-2: b cluster-3: c".toList) "1".toList
      = "a cluster-2: b \n".toList ∧
    (runFaLine true "cluster".toList emptyOut
        "cluster-1: a cluster-2: b cluster-3: c".toList) "2".toList = [] ∧
    (runFaLine true "cluster".toList emptyOut
        "cluster-1: a cluster-2: b cluster-3: c".toList) "3".toList = "c\n".toList := by
  decide

/-! Supporting lemmas for the doubled-line attribution theorem. -/

lemma dropExact_self_append (p s : List Char) : dropExact p (p ++ s) = some s := by
  induction p with
  | nil => rfl
  | cons a tl ih => simp [dropExact, ih]

lemma takeDigits_append_colon (a rest : List Char) (ha : ∀ c ∈ a, c.isDigit = true) :
    takeDigits (a ++ ':' :: rest) = (a, ':' :: rest) := by
  induction a with
  | nil => simp [takeDigits]
  | cons c tl ih =>
      have hc : c.isDigit = true := ha c (by simp)
      have htl := ih (fun x hx => ha x (by simp [hx]))
      simp [takeDigits, hc, htl]

lemma matchNodeId_build (cn a rest : List Char) (ha0 : a ≠ [])
    (ha : ∀ c ∈ a, c.isDigit = true) :
    matchNodeId cn (cn ++ '-' :: (a ++ ':' :: rest)) = some (a, stripWS rest) := by
  unfold matchNodeId
  rw [show cn ++ '-' :: (a ++ ':' :: rest) = (cn ++ ['-']) ++ (a ++ ':' :: rest) by simp]
  rw [dropExact_self_append]
  simp only [takeDigits_append_colon a rest ha]
  simp [ha0]

lemma matchNodeId_nil (cn : List Char) (hcn : cn ≠ []) : matchNodeId cn [] = none := by
  rcases cn with _ | ⟨c, cs⟩
  · exact absurd rfl hcn
  · simp [matchNodeId, dropExact]

lemma stripWS_not_space (c : Char) (l : List Char) (h : pyIsSpace c = false) :
    stripWS (c :: l) = c :: l := by
  simp [stripWS, h]

lemma stripWS_space_cons (c : Char) (l : List Char) (h : pyIsSpace c = true) :
    stripWS (c :: l) = stripWS l := by
  simp [stripWS, h]

lemma stripWS_all_space (l : List Char) (h : stripWS l = []) :
    ∀ c ∈ l, pyIsSpace c = true := by
  induction l with
  | nil => simp
  | cons c tl ih =>
      by_cases hc : pyIsSpace c = true
      · rw [stripWS_space_cons c tl hc] at h
        intro x hx
        rcases List.mem_cons.mp hx with hx | hx
        · rw [hx]; exact hc
        · exact ih h x hx
      · rw [stripWS_not_space c tl (by simpa using hc)] at h
        exact absurd h (by simp)

lemma take_len_append (l1 l2 : List Char) : (l1 ++ l2).take l1.length = l1 := by
  induction l1 with
  | nil => rfl
  | cons a tl ih => simp [ih]

lemma drop_len_append (l1 l2 : List Char) : (l1 ++ l2).drop l1.length = l2 := by
  induction l1 with
  | nil => rfl
  | cons a tl ih => simp [ih]

lemma get_len_append (l1 l2 : List Char) (c : Char) :
    (l1 ++ c :: l2).get? l1.length = some c := by
  induction l1 with
  | nil => rfl
  | cons a tl ih => simpa using ih

lemma reScanFrom_finds (cn data idb restb : List Char) (ch : Char) (s : Nat)
    (hs1 : 1 ≤ s)
    (hget : data.get? (s - 1) = some ch)
    (hch : ch ≠ '@')
    (hmatch : matchNodeId cn (data.drop s) = some (idb, restb))
    (habove : ∀ q, s < q → matchNodeId cn (data.drop q) = none) :
    ∀ k, s ≤ k → reScanFrom cn data k = some (data.take s, idb, restb) := by
  intro k
  induction k with
  | zero => intro h; omega
  | succ e ih =>
      intro hk
      rcases Nat.lt_or_ge e s with he | he
      · have hse : s = e + 1 := by omega
        subst hse
        simp only [Nat.add_sub_cancel] at hget
        simp only [reScanFrom, hget, hmatch]
        rw [if_neg hch]
      · have hnone := habove (e + 1) (by omega)
        simp only [reScanFrom, hnone]
        cases hg : data.get? e <;> simp only [] <;> exact ih he

/-- The data part of a well-formed doubled line: what follows
`"<cn>-<a>: "` in the claim's line shape
`"<cn>-<a>: <d1> <cn>-<b>: <d2>"`. -/
def doubleLineData (cn d1 b d2 : List Char) : List Char :=
  d1 ++ ' ' :: (cn ++ '-' :: (b ++ ':' :: ' ' :: d2))

/-- The claim's doubled line `"<cn>-<a>: <d1> <cn>-<b>: <d2>"`. -/
def doubleLine (cn a d1 b d2 : List Char) : List Char :=
  cn ++ '-' :: (a ++ ':' :: ' ' :: doubleLineData cn d1 b d2)

/-- C2 (amended): on a doubled line `"<cn>-<a>: <d1> <cn>-<b>: <d2>"`
whose data carries no `isi_rdo` deny-list substring and no third prefix
occurrence, `run_fa` attributes to node `a` the fragment `<d1>` *followed
by the separating space* (the greedy capture group `(.*[^@])?` includes
it), newline-terminated, and attributes `<d2>` newline-terminated to node
`b`; all other nodes are untouched.  (The original claim stated the bare
`<d1>` without the trailing space.) -/
theorem run_fa_double_line_attribution
    (debug : Bool) (cn a d1 b d2 : List Char) (d : OutDict)
    (hcn : cn ≠ [])
    (ha0 : a ≠ []) (ha : ∀ c ∈ a, c.isDigit = true)
    (hb0 : b ≠ []) (hb : ∀ c ∈ b, c.isDigit = true)
    (hab : a ≠ b)
    (hd1 : ∃ c t, d1 = c :: t ∧ pyIsSpace c = false)
    (hd2 : ∃ c t, d2 = c :: t ∧ pyIsSpace c = false)
    (hdeny : isSub "isi_rdo".toList (doubleLineData cn d1 b d2) = false)
    (hnotriple : reScan cn d2 = none)
    (hmax : ∀ q, q ≤ (doubleLineData cn d1 b d2).length → d1.length + 1 < q →
       matchNodeId cn ((doubleLineData cn d1 b d2).drop q) = none) :
    (runFaLine debug cn d (doubleLine cn a d1 b d2)) a = d a ++ d1 ++ [' ', '\n'] ∧
    (runFaLine debug cn d (doubleLine cn a d1 b d2)) b = d b ++ d2 ++ ['\n'] ∧
    (∀ k, k ≠ a → k ≠ b → (runFaLine debug cn d (doubleLine cn a d1 b d2)) k = d k) := by
  obtain ⟨c1, t1, hd1eq, hc1⟩ := hd1
  obtain ⟨c2, t2, hd2eq, hc2⟩ := hd2
  have hdata_eq : doubleLineData cn d1 b d2
      = (d1 ++ [' ']) ++ (cn ++ '-' :: (b ++ ':' :: ' ' :: d2)) := by
    simp [doubleLineData]
  -- the line is not blank: it contains '-'
  have hblank : ¬ (stripWS (doubleLine cn a d1 b d2) = []) := by
    intro h
    have hmem : '-' ∈ doubleLine cn a d1 b d2 := by
      unfold doubleLine
      exact List.mem_append_right _ (by simp)
    have := stripWS_all_space _ h '-' hmem
    exact absurd this (by decide)
  -- the anchored first match
  have hstrip_data : stripWS (' ' :: doubleLineData cn d1 b d2) = doubleLineData cn d1 b d2 := by
    rw [stripWS_space_cons _ _ (by decide)]
    rw [show doubleLineData cn d1 b d2
          = c1 :: (t1 ++ ' ' :: (cn ++ '-' :: (b ++ ':' :: ' ' :: d2))) by
        simp [doubleLineData, hd1eq]]
    exact stripWS_not_space _ _ hc1
  have hline : matchNodeId cn (doubleLine cn a d1 b d2)
      = some (a, doubleLineData cn d1 b d2) := by
    unfold doubleLine
    rw [show a ++ ':' :: ' ' :: doubleLineData cn d1 b d2
          = a ++ ':' :: (' ' :: doubleLineData cn d1 b d2) from rfl]
    rw [matchNodeId_build cn a _ ha0 ha, hstrip_data]
  -- the re-scan splits at position d1.length + 1
  have hdrop : (doubleLineData cn d1 b d2).drop (d1.length + 1)
      = cn ++ '-' :: (b ++ ':' :: ' ' :: d2) := by
    rw [hdata_eq]
    have h1 : d1.length + 1 = (d1 ++ [' ']).length := by simp
    rw [h1, drop_len_append]
  have htake : (doubleLineData cn d1 b d2).take (d1.length + 1) = d1 ++ [' '] := by
    rw [hdata_eq]
    have h1 : d1.length + 1 = (d1 ++ [' ']).length := by simp
    rw [h1, take_len_append]
  have hmatch_s : matchNodeId cn ((doubleLineData cn d1 b d2).drop (d1.length + 1))
      = some (b, d2) := by
    rw [hdrop]
    rw [show b ++ ':' :: ' ' :: d2 = b ++ ':' :: (' ' :: d2) from rfl]
    rw [matchNodeId_build cn b _ hb0 hb]
    rw [stripWS_space_cons _ _ (by decide), hd2eq, stripWS_not_space _ _ hc2]
  have hget : (doubleLineData cn d1 b d2).get? d1.length = some ' ' := by
    unfold doubleLineData
    exact get_len_append d1 _ ' '
  have habove : ∀ q, d1.length + 1 < q →
      matchNodeId cn ((doubleLineData cn d1 b d2).drop q) = none := by
    intro q hq
    by_cases hmq : q ≤ (doubleLineData cn d1 b d2).length
    · exact hmax q hmq hq
    · rw [List.drop_eq_nil_of_le (by omega)]
      exact matchNodeId_nil cn hcn
  have hs_le : d1.length + 1 ≤ (doubleLineData cn d1 b d2).length := by
    rw [hdata_eq]; simp
  have hfind := reScanFrom_finds cn (doubleLineData cn d1 b d2) b d2 ' '
      (d1.length + 1) (by omega) (by simpa using hget) (by decide) hmatch_s habove
      (doubleLineData cn d1 b d2).length hs_le
  have hrescan : reScan cn (doubleLineData cn d1 b d2)
      = some (some (d1 ++ [' ']), b, d2) := by
    unfold reScan
    rw [hfind, htake]
  -- evaluate the line handler
  have heval : runFaLine debug cn d (doubleLine cn a d1 b d2)
      = addOut (addOut d a (d1 ++ [' '])) b d2 := by
    unfold runFaLine
    rw [if_neg hblank]
    simp only [hline, hrescan, hdeny, hnotriple, Bool.false_eq_true, if_false]
    rfl
  rw [heval]
  refine ⟨?_, ?_, ?_⟩
  · simp [addOut, hab]
  · have hba : ¬ (b = a) := fun h => hab h.symm
    simp [addOut, hba]
  · intro k hka hkb
    simp [addOut, hka, hkb]

/-- C2 witness: the amended attribution at the concrete collision line
`"cluster-1: data cluster-2: moredata"`. -/
theorem run_fa_double_line_attribution_witness :
    (runFaLine false "cluster".toList emptyOut
        (doubleLine "cluster".toList "1".toList "data".toList "2".toList "moredata".toList))
        "1".toList = emptyOut "1".toList ++ "data".toList ++ [' ', '\n'] ∧
    (runFaLine false "cluster".toList emptyOut
        (doubleLine "cluster".toList "1".toList "data".toList "2".toList "moredata".toList))
        "2".toList = emptyOut "2".toList ++ "moredata".toList ++ ['\n'] :=
  ⟨(run_fa_double_line_attribution false "cluster".toList "1".toList "data".toList
      "2".toList "moredata".toList emptyOut (by decide) (by decide) (by decide)
      (by decide) (by decide) (by decide)
      ⟨'d', "ata".toList, by decide, by decide⟩
      ⟨'m', "oredata".toList, by decide, by decide⟩
      (by decide) (by decide) (by decide)).1,
   (run_fa_double_line_attribution false "cluster".toList "1".toList "data".toList
      "2".toList "moredata".toList emptyOut (by decide) (by decide) (by decide)
      (by decide) (by decide) (by decide)
      ⟨'d', "ata".toList, by decide, by decide⟩
      ⟨'m', "oredata".toList, by decide, by decide⟩
      (by decide) (by decide) (by decide)).2.1⟩

/-! ### `run_fa` per-batch reporting (lines 593-609)

After each batch `run_command_full_output` returns `(result, out, err)`;
the code then runs
`if result and ignore: (if out == "": debug-print else: output(error, 2))`
followed by the unconditional stderr block when `err != ""`. -/

/-- The diagnostic events one batch produces. -/
structure BatchReport where
  execErrorEvent : Bool
  ignoredEmptyNote : Bool
  stderrLogged : Bool
deriving DecidableEq, Repr

/-- The post-batch reporting of `run_fa`: the execution-error event
(`self.output(..., 2)`) fires only when the exit code is non-zero *and*
`ignore` is set *and* the output is non-empty; the "Ignoring empty output"
note is a debug-mode print; the stderr block is emitted whenever the error
stream is non-empty. -/
def run_fa_batch_report (ignore debug : Bool) (result : Int) (out err : List Char) :
    BatchReport :=
  if result ≠ 0 ∧ ignore = true then
    if out = [] then ⟨false, debug, !err.isEmpty⟩
    else ⟨true, false, !err.isEmpty⟩
  else ⟨false, false, !err.isEmpty⟩

/-- C5 counterexample: a batch exiting 1 with non-empty output and the
ignore flag *not* set produces no execution-error event, contradicting the
claim that such a batch is surfaced as an execution error. -/
theorem batch_exec_event_counterexample :
    (run_fa_batch_report false false 1 "some output".toList []).execErrorEvent = false := by
  decide

/-- C5 (amended): `run_fa` surfaces a batch as an execution-error event
exactly when the exit code is non-zero, the `ignore` flag *is* set, and the
batch output is non-empty; with `ignore` unset a non-zero exit code is
silently ignored (the guard is `if result and ignore:`, the reverse of the
claimed `unless ignore`). -/
theorem batch_exec_event_iff (ignore debug : Bool) (result : Int) (out err : List Char) :
    (run_fa_batch_report ignore debug result out err).execErrorEvent = true ↔
      (result ≠ 0 ∧ ignore = true ∧ out ≠ []) := by
  unfold run_fa_batch_report
  by_cases h1 : result ≠ 0 ∧ ignore = true
  · rw [if_pos h1]
    by_cases h2 : out = []
    · rw [if_pos h2]
      simp [h1.1, h1.2, h2]
    · rw [if_neg h2]
      simp [h1.1, h1.2, h2]
  · rw [if_neg h1]
    simp only [Bool.false_eq_true, false_iff]
    intro hcontra
    exact h1 ⟨hcontra.1, hcontra.2.1⟩

/-! ### `Cluster.regress_data` (lines 707-767)

Samples arrive as strings; `is_numeric` (regex `^[0-9]+\.*[0-9]*$`) gates
each pair, and pairs failing it are skipped while `n = len(x)` is fixed
*before* the filter.  We model an already-classified sample as
`Option ℚ` (`none` = non-numeric) and Python float arithmetic as exact
rational arithmetic (the `float(str(.))` round-trips and the final
`"%15.6e"` / `"%.7f"` display formatting are identity at this level of
abstraction).  Python `/` is modelled by `pyDiv` (`none` =
`ZeroDivisionError`); the result tuple is `(slope, intercept, ccNum,
ccRad)` where the correlation coefficient's real value is
`ccNum / Real.sqrt ccRad` — the degenerate branches return
`(0, 0, 0, 1)`, i.e. a zero coefficient.  The guard
`if (n*sumx2 - sqr(sumx)) and (sumy2 - sqr(sumy)/n):` short-circuits, so
`sqr(sumy)/n` is evaluated only when the first factor is non-zero; the
`if denom:` test cannot fail once the radicand is positive and is not
represented. -/

/-- Source helper `sqr` (line 823). -/
def sqr (a : ℚ) : ℚ := a * a

/-- The five running sums of the sample loop (lines 708-728). -/
structure RSums where
  sumx : ℚ
  sumx2 : ℚ
  sumxy : ℚ
  sumy : ℚ
  sumy2 : ℚ
deriving DecidableEq, Repr

/-- One iteration of the sample loop: skip when either sample is
non-numeric, otherwise add to all five sums. -/
def addSample (s : RSums) : Option ℚ × Option ℚ → RSums
  | (some a, some b) =>
      ⟨s.sumx + a, s.sumx2 + a * a, s.sumxy + a * b, s.sumy + b, s.sumy2 + b * b⟩
  | _ => s

/-- The sample loop `for i in range(len(x))` over the paired samples. -/
def computeSums (xy : List (Option ℚ × Option ℚ)) : RSums :=
  xy.foldl addSample ⟨0, 0, 0, 0, 0⟩

/-- Python `/` : `none` models `ZeroDivisionError`. -/
def pyDiv (a b : ℚ) : Option ℚ := if b = 0 then none else some (a / b)

/-- The sample loop `for i in range(len(x))` (lines 714-728), position by
position.  The guard `if not self.is_numeric(x[i]) or not self.is_numeric(y[i]):
continue` short-circuits, so `y[i]` is touched only when `x[i]` is numeric;
a numeric `x[i]` with `i` beyond the end of `y` is the source's `IndexError`
at `y[i]` (line 716), modelled as `none`. -/
def sampleLoop (acc : RSums) : List (Option ℚ) → List (Option ℚ) → Option RSums
  | [], _ => some acc
  | none :: xs, [] => sampleLoop acc xs []
  | some _ :: _, [] => none
  | none :: xs, _ :: ys => sampleLoop acc xs ys
  | some _ :: xs, none :: ys => sampleLoop acc xs ys
  | some a :: xs, some b :: ys =>
      sampleLoop ⟨acc.sumx + a, acc.sumx2 + a * a, acc.sumxy + a * b,
        acc.sumy + b, acc.sumy2 + b * b⟩ xs ys

/-- Source `regress_data` (lines 707-767).  `n = len(x)` is taken before the
numeric filter.  Result `some (slope, intercept, ccNum, ccRad)` with real
correlation coefficient `ccNum / Real.sqrt ccRad`; `none` is a raised
exception (`IndexError` from the sample loop, or `ZeroDivisionError` at a
division site). -/
def regress_data (x y : List (Option ℚ)) : Option (ℚ × ℚ × ℚ × ℚ) :=
  let n : ℚ := (x.length : ℚ)
  match sampleLoop ⟨0, 0, 0, 0, 0⟩ x y with
  | none => none
  | some s =>
  if n * s.sumx2 - sqr s.sumx = 0 then
    some (0, 0, 0, 1)
  else
    match pyDiv (sqr s.sumy) n with
    | none => none
    | some q =>
        if s.sumy2 - q = 0 then
          some (0, 0, 0, 1)
        else
          match pyDiv (n * s.sumxy - s.sumx * s.sumy) (n * s.sumx2 - sqr s.sumx) with
          | none => none
          | some m =>
              match pyDiv (s.sumy * s.sumx2 - s.sumx * s.sumxy) (n * s.sumx2 - sqr s.sumx) with
              | none => none
              | some b =>
                  match pyDiv (sqr s.sumx) n with
                  | none => none
                  | some vx =>
                      let rad := (s.sumx2 - vx) * (s.sumy2 - q)
                      if rad ≤ 0 then
                        some (0, 0, 0, 1)
                      else
                        match pyDiv (s.sumx * s.sumy) n with
                        | none => none
                        | some t => some (m, b, s.sumxy - t, rad)

/-! Characterization of the running sums. -/

/-- The sample pairs that survive the `is_numeric` filter. -/
def validPairs (l : List (Option ℚ × Option ℚ)) : List (ℚ × ℚ) :=
  l.filterMap (fun p =>
    match p with
    | (some a, some b) => some (a, b)
    | _ => none)

/-- Sum of squares of a rational list. -/
def sumsq (l : List ℚ) : ℚ := (l.map (fun a => a * a)).sum

/-- Sum of pairwise products. -/
def sumprod (l : List (ℚ × ℚ)) : ℚ := (l.map (fun p => p.1 * p.2)).sum

lemma computeSums_foldl (l : List (Option ℚ × Option ℚ)) : ∀ acc : RSums,
    l.foldl addSample acc =
      ⟨acc.sumx + ((validPairs l).map Prod.fst).sum,
       acc.sumx2 + sumsq ((validPairs l).map Prod.fst),
       acc.sumxy + sumprod (validPairs l),
       acc.sumy + ((validPairs l).map Prod.snd).sum,
       acc.sumy2 + sumsq ((validPairs l).map Prod.snd)⟩ := by
  induction l with
  | nil => intro acc; simp [validPairs, sumsq, sumprod]
  | cons p tl ih =>
      intro acc
      rcases p with ⟨oa, ob⟩
      rcases oa with _ | a <;> rcases ob with _ | b <;>
        · simp only [List.foldl_cons, addSample, validPairs, List.filterMap_cons]
          rw [ih]
          simp [validPairs, sumsq, sumprod, RSums.mk.injEq]
          first
          | refine ⟨by ring, by ring, by ring, by ring, by ring⟩
          | skip

lemma computeSums_eq (l : List (Option ℚ × Option ℚ)) :
    computeSums l =
      ⟨((validPairs l).map Prod.fst).sum,
       sumsq ((validPairs l).map Prod.fst),
       sumprod (validPairs l),
       ((validPairs l).map Prod.snd).sum,
       sumsq ((validPairs l).map Prod.snd)⟩ := by
  unfold computeSums
  rw [computeSums_foldl]
  simp

/-- On columns where `y` covers every position of `x` (in particular on the
equal-length columns of one sample series), the index loop completes and
computes exactly the zip-based running sums. -/
lemma sampleLoop_eq (x : List (Option ℚ)) : ∀ (y : List (Option ℚ)),
    x.length ≤ y.length → ∀ acc,
    sampleLoop acc x y = some ((x.zip y).foldl addSample acc) := by
  induction x with
  | nil =>
      intro y h acc
      simp [sampleLoop]
  | cons ox xs ih =>
      intro y h acc
      cases y with
      | nil => simp at h
      | cons oy ys =>
          have hle : xs.length ≤ ys.length := by simpa using h
          cases ox with
          | none =>
              simp only [sampleLoop, List.zip_cons_cons, List.foldl_cons]
              rw [show addSample acc (none, oy) = acc from by cases oy <;> rfl]
              exact ih ys hle acc
          | some a =>
              cases oy with
              | none =>
                  simp only [sampleLoop, List.zip_cons_cons, List.foldl_cons]
                  rw [show addSample acc (some a, none) = acc from rfl]
                  exact ih ys hle acc
              | some b =>
                  simp only [sampleLoop, List.zip_cons_cons, List.foldl_cons]
                  exact ih ys hle _

lemma sampleLoop_eq_computeSums (x y : List (Option ℚ)) (h : x.length ≤ y.length) :
    sampleLoop ⟨0, 0, 0, 0, 0⟩ x y = some (computeSums (x.zip y)) :=
  sampleLoop_eq x y h ⟨0, 0, 0, 0, 0⟩

/-- Faithfulness of the `IndexError` path: a numeric `x[i]` with no matching
`y[i]` makes the whole call raise (line 716), not return a fit. -/
lemma regress_data_short_y_raises :
    regress_data [some 0, some 5] [some 1] = none := rfl

lemma sum_centered_sq (l : List ℚ) (c : ℚ) :
    (l.map (fun a => (a - c) ^ 2)).sum
      = sumsq l - 2 * c * l.sum + l.length * c ^ 2 := by
  induction l with
  | nil => simp [sumsq]
  | cons a tl ih =>
      simp only [List.map_cons, List.sum_cons, List.length_cons, ih, sumsq]
      push_cast
      ring

lemma sumsq_nonneg (l : List ℚ) : 0 ≤ sumsq l := by
  apply List.sum_nonneg
  intro x hx
  obtain ⟨a, _, rfl⟩ := List.mem_map.mp hx
  exact mul_self_nonneg a

lemma sq_sum_le_length_mul_sumsq (l : List ℚ) :
    l.sum ^ 2 ≤ (l.length : ℚ) * sumsq l := by
  induction l with
  | nil => simp [sumsq]
  | cons a tl ih =>
      rcases eq_or_ne tl [] with rfl | hne
      · simp only [List.sum_cons, List.sum_nil, List.length_cons, List.length_nil, sumsq,
          List.map_cons, List.map_nil, add_zero]
        push_cast
        nlinarith [sq_nonneg a]
      · have hn : (0 : ℚ) < tl.length := by
          exact_mod_cast List.length_pos.mpr hne
        have hs := sumsq_nonneg tl
        simp only [List.sum_cons, List.length_cons, sumsq, List.map_cons, List.sum_cons] at *
        push_cast
        nlinarith [sub_nonneg.mpr ih, mul_nonneg hn.le (sub_nonneg.mpr ih), hn, hs,
          sq_nonneg ((tl.length : ℚ) * a - tl.sum)]

lemma centered_sum_pos (l : List ℚ) (a b : ℚ) (ha : a ∈ l) (hb : b ∈ l)
    (hab : a ≠ b) (c : ℚ) :
    0 < (l.map (fun x => (x - c) ^ 2)).sum := by
  have hx0 : ∃ x0, x0 ∈ l ∧ x0 ≠ c := by
    by_cases hac : a = c
    · exact ⟨b, hb, fun hbc => hab (hac.trans hbc.symm)⟩
    · exact ⟨a, ha, hac⟩
  obtain ⟨x0, hx0mem, hx0ne⟩ := hx0
  have hmem : (x0 - c) ^ 2 ∈ l.map (fun x => (x - c) ^ 2) :=
    List.mem_map_of_mem _ hx0mem
  have hle : (x0 - c) ^ 2 ≤ (l.map (fun x => (x - c) ^ 2)).sum := by
    apply List.single_le_sum _ _ hmem
    intro x hx
    obtain ⟨t, _, rfl⟩ := List.mem_map.mp hx
    positivity
  have hpos : 0 < (x0 - c) ^ 2 := by
    have : x0 - c ≠ 0 := sub_ne_zero.mpr hx0ne
    positivity
  linarith

lemma var_term_pos (l : List ℚ) (a b : ℚ) (ha : a ∈ l) (hb : b ∈ l) (hab : a ≠ b) :
    0 < (l.length : ℚ) * sumsq l - l.sum ^ 2 := by
  have hn : 0 < (l.length : ℚ) := by
    have hne : l ≠ [] := by rintro rfl; simp at ha
    exact_mod_cast List.length_pos.mpr hne
  have key := sum_centered_sq l (l.sum / l.length)
  have hpos := centered_sum_pos l a b ha hb hab (l.sum / l.length)
  rw [key] at hpos
  have hc : l.sum / (l.length : ℚ) * l.length = l.sum :=
    div_mul_cancel₀ _ (ne_of_gt hn)
  nlinarith [mul_pos hn hpos, hc, hn]

lemma length_ne_zero_of_guard (x y : List (Option ℚ))
    (hg1 : (x.length : ℚ) * (computeSums (x.zip y)).sumx2
        - sqr (computeSums (x.zip y)).sumx ≠ 0) :
    (x.length : ℚ) ≠ 0 := by
  intro hn
  apply hg1
  have hx : x = [] := List.length_eq_zero.mp (by exact_mod_cast hn)
  subst hx
  simp [computeSums, sqr]

lemma valid_length_le (x y : List (Option ℚ)) :
    ((validPairs (x.zip y)).length : ℚ) ≤ (x.length : ℚ) := by
  have h1 : (validPairs (x.zip y)).length ≤ (x.zip y).length :=
    List.length_filterMap_le _ _
  have h2 : (x.zip y).length ≤ x.length := by
    rw [List.length_zip]; exact Nat.min_le_left _ _
  exact_mod_cast le_trans h1 h2

/-- The x-data variance term `sumx2 - sqr(sumx)/n` is non-negative even
though `n = len(x)` counts the unfiltered samples. -/
lemma xvar_nonneg (x y : List (Option ℚ)) (hn : 0 < (x.length : ℚ)) :
    0 ≤ (computeSums (x.zip y)).sumx2
        - sqr (computeSums (x.zip y)).sumx / (x.length : ℚ) := by
  have hk : (((validPairs (x.zip y)).map Prod.fst).length : ℚ) ≤ (x.length : ℚ) := by
    rw [List.length_map]
    exact valid_length_le x y
  have hc : ((validPairs (x.zip y)).map Prod.fst).sum ^ 2
      ≤ (x.length : ℚ) * sumsq ((validPairs (x.zip y)).map Prod.fst) :=
    le_trans (sq_sum_le_length_mul_sumsq _)
      (mul_le_mul_of_nonneg_right hk (sumsq_nonneg _))
  rw [computeSums_eq]
  show 0 ≤ sumsq ((validPairs (x.zip y)).map Prod.fst)
      - sqr ((validPairs (x.zip y)).map Prod.fst).sum / (x.length : ℚ)
  rw [sub_nonneg, div_le_iff₀ hn]
  simp only [sqr]
  nlinarith [hc]

/-- Same for the y-data variance term. -/
lemma yvar_nonneg (x y : List (Option ℚ)) (hn : 0 < (x.length : ℚ)) :
    0 ≤ (computeSums (x.zip y)).sumy2
        - sqr (computeSums (x.zip y)).sumy / (x.length : ℚ) := by
  have hk : (((validPairs (x.zip y)).map Prod.snd).length : ℚ) ≤ (x.length : ℚ) := by
    rw [List.length_map]
    exact valid_length_le x y
  have hc : ((validPairs (x.zip y)).map Prod.snd).sum ^ 2
      ≤ (x.length : ℚ) * sumsq ((validPairs (x.zip y)).map Prod.snd) :=
    le_trans (sq_sum_le_length_mul_sumsq _)
      (mul_le_mul_of_nonneg_right hk (sumsq_nonneg _))
  rw [computeSums_eq]
  show 0 ≤ sumsq ((validPairs (x.zip y)).map Prod.snd)
      - sqr ((validPairs (x.zip y)).map Prod.snd).sum / (x.length : ℚ)
  rw [sub_nonneg, div_le_iff₀ hn]
  simp only [sqr]
  nlinarith [hc]

/-- Full evaluation of `regress_data` on the non-degenerate path. -/
lemma regress_data_eval (x y : List (Option ℚ))
    (hlen : x.length ≤ y.length)
    (hg1 : (x.length : ℚ) * (computeSums (x.zip y)).sumx2
        - sqr (computeSums (x.zip y)).sumx ≠ 0)
    (hg2 : (computeSums (x.zip y)).sumy2
        - sqr (computeSums (x.zip y)).sumy / (x.length : ℚ) ≠ 0)
    (hg3 : 0 < ((computeSums (x.zip y)).sumx2
          - sqr (computeSums (x.zip y)).sumx / (x.length : ℚ)) *
        ((computeSums (x.zip y)).sumy2
          - sqr (computeSums (x.zip y)).sumy / (x.length : ℚ))) :
    regress_data x y =
      some (((x.length : ℚ) * (computeSums (x.zip y)).sumxy -
               (computeSums (x.zip y)).sumx * (computeSums (x.zip y)).sumy) /
              ((x.length : ℚ) * (computeSums (x.zip y)).sumx2 - sqr (computeSums (x.zip y)).sumx),
            ((computeSums (x.zip y)).sumy * (computeSums (x.zip y)).sumx2 -
               (computeSums (x.zip y)).sumx * (computeSums (x.zip y)).sumxy) /
              ((x.length : ℚ) * (computeSums (x.zip y)).sumx2 - sqr (computeSums (x.zip y)).sumx),
            (computeSums (x.zip y)).sumxy -
              (computeSums (x.zip y)).sumx * (computeSums (x.zip y)).sumy / (x.length : ℚ),
            ((computeSums (x.zip y)).sumx2 - sqr (computeSums (x.zip y)).sumx / (x.length : ℚ)) *
              ((computeSums (x.zip y)).sumy2 - sqr (computeSums (x.zip y)).sumy / (x.length : ℚ))) := by
  have hn0 := length_ne_zero_of_guard x y hg1
  unfold regress_data
  rw [sampleLoop_eq_computeSums x y hlen]
  simp only [pyDiv, if_neg hn0, if_neg hg1, if_neg hg2, if_neg (not_le.mpr hg3)]

/-- C7: on a degenerate sample series (equal-length x/y columns, as a
series of (timestamp, value) pairs always yields) — zero x-variance term,
zero y-variance term, or non-positive combined variance product, which
covers the all-constant and the empty-series cases — `regress_data`
returns zero slope, zero intercept and zero correlation coefficient, and
raises no exception (the result is `some`, never `none`: the equal-length
columns rule out the sample loop's `IndexError`, and for the empty series
the short-circuit `and` prevents the `sqr(sumy)/n` division). -/
theorem regress_data_degenerate_zero (x y : List (Option ℚ))
    (hlen : x.length = y.length)
    (h : (x.length : ℚ) * (computeSums (x.zip y)).sumx2
          - sqr (computeSums (x.zip y)).sumx = 0
       ∨ ((x.length : ℚ) ≠ 0 ∧
          (computeSums (x.zip y)).sumy2
            - sqr (computeSums (x.zip y)).sumy / (x.length : ℚ) = 0)
       ∨ ((computeSums (x.zip y)).sumx2
            - sqr (computeSums (x.zip y)).sumx / (x.length : ℚ)) *
         ((computeSums (x.zip y)).sumy2
            - sqr (computeSums (x.zip y)).sumy / (x.length : ℚ)) ≤ 0) :
    regress_data x y = some (0, 0, 0, 1) := by
  by_cases hg1 : (x.length : ℚ) * (computeSums (x.zip y)).sumx2
      - sqr (computeSums (x.zip y)).sumx = 0
  · unfold regress_data
    rw [sampleLoop_eq_computeSums x y (le_of_eq hlen)]
    simp only [if_pos hg1]
  · have hn0 := length_ne_zero_of_guard x y hg1
    have hn : 0 < (x.length : ℚ) := lt_of_le_of_ne (by positivity) (Ne.symm hn0)
    by_cases hg2 : (computeSums (x.zip y)).sumy2
        - sqr (computeSums (x.zip y)).sumy / (x.length : ℚ) = 0
    · unfold regress_data
      rw [sampleLoop_eq_computeSums x y (le_of_eq hlen)]
      simp only [pyDiv, if_neg hg1, if_neg hn0, if_pos hg2]
    · -- both guards are non-zero; the hypothesis forces the (impossible)
      -- non-positive product case, which contradicts the variance bounds
      exfalso
      rcases h with h | h | h
      · exact hg1 h
      · exact hg2 h.2
      · have hx := xvar_nonneg x y hn
        have hy := yvar_nonneg x y hn
        have hxne : (computeSums (x.zip y)).sumx2
            - sqr (computeSums (x.zip y)).sumx / (x.length : ℚ) ≠ 0 := by
          intro h0
          apply hg1
          have : (x.length : ℚ) * ((computeSums (x.zip y)).sumx2
              - sqr (computeSums (x.zip y)).sumx / (x.length : ℚ)) = 0 := by
            rw [h0]; ring
          field_simp at this
          linarith [this]
        have hxpos := lt_of_le_of_ne hx (Ne.symm hxne)
        have hypos := lt_of_le_of_ne hy (Ne.symm hg2)
        exact absurd (mul_pos hxpos hypos) (not_lt.mpr h)

/-- C7 witness: a constant x-series (zero x-variance) yields the zero
triple without raising. -/
theorem regress_data_degenerate_zero_witness :
    regress_data [some 1, some 1] [some 2, some 3] = some (0, 0, 0, 1) :=
  regress_data_degenerate_zero [some 1, some 1] [some 2, some 3] rfl
    (Or.inl (by norm_num [computeSums, addSample, sqr, List.zip_cons_cons, List.zip_nil_right]))

/-! The perfectly linear series `y = 2x + 3`. -/

lemma zip_map_pair (f g : ℚ → Option ℚ) (xs : List ℚ) :
    (xs.map f).zip (xs.map g) = xs.map (fun t => (f t, g t)) := by
  induction xs with
  | nil => rfl
  | cons a tl ih => simp [ih]

lemma validPairs_map_pair (g : ℚ → ℚ) (xs : List ℚ) :
    validPairs (xs.map (fun t => (some t, some (g t)))) = xs.map (fun t => (t, g t)) := by
  induction xs with
  | nil => rfl
  | cons a tl ih => simp [validPairs, List.filterMap_cons] at ih ⊢; exact ih

lemma sum_map_affine (xs : List ℚ) :
    (xs.map (fun t => 2 * t + 3)).sum = 2 * xs.sum + 3 * xs.length := by
  induction xs with
  | nil => simp
  | cons a tl ih =>
      simp only [List.map_cons, List.sum_cons, List.length_cons, ih]
      push_cast
      ring

lemma sumsq_map_affine (xs : List ℚ) :
    sumsq (xs.map (fun t => 2 * t + 3)) = 4 * sumsq xs + 12 * xs.sum + 9 * xs.length := by
  induction xs with
  | nil => simp [sumsq]
  | cons a tl ih =>
      simp only [sumsq, List.map_cons, List.sum_cons, List.length_cons] at ih ⊢
      rw [ih]
      push_cast
      ring

lemma sumprod_pair_affine (xs : List ℚ) :
    sumprod (xs.map (fun t => (t, 2 * t + 3))) = 2 * sumsq xs + 3 * xs.sum := by
  induction xs with
  | nil => simp [sumprod, sumsq]
  | cons a tl ih =>
      simp only [sumprod, sumsq, List.map_cons, List.sum_cons] at ih ⊢
      rw [ih]
      ring

lemma map_fst_pair_affine (xs : List ℚ) :
    (xs.map (fun t => (t, 2 * t + 3))).map Prod.fst = xs := by
  induction xs with
  | nil => rfl
  | cons hd tl ih => simp only [List.map_cons, ih]

lemma map_snd_pair_affine (xs : List ℚ) :
    (xs.map (fun t => (t, 2 * t + 3))).map Prod.snd = xs.map (fun t => 2 * t + 3) := by
  induction xs with
  | nil => rfl
  | cons hd tl ih => simp only [List.map_cons, ih]

lemma computeSums_linear (xs : List ℚ) :
    computeSums ((xs.map some).zip (xs.map (fun t => some (2 * t + 3)))) =
      ⟨xs.sum, sumsq xs, 2 * sumsq xs + 3 * xs.sum,
       2 * xs.sum + 3 * xs.length, 4 * sumsq xs + 12 * xs.sum + 9 * xs.length⟩ := by
  rw [zip_map_pair, computeSums_eq, validPairs_map_pair]
  rw [map_fst_pair_affine, map_snd_pair_affine,
    sumprod_pair_affine, sum_map_affine, sumsq_map_affine]

/-- C6: with all samples numeric and the lists of equal length, `n` equals
the count of valid samples and, whenever the guards are satisfied,
`regress_data` returns the ordinary least-squares slope
`(n·Σxy − Σx·Σy)/(n·Σx² − (Σx)²)`, the intercept
`(Σy·Σx² − Σx·Σxy)/(n·Σx² − (Σx)²)`, and the Pearson coefficient
`(Σxy − Σx·Σy/n) / sqrt((Σx² − (Σx)²/n)(Σy² − (Σy)²/n))` from the five
running sums; in particular, on a series lying exactly on `y = 2x + 3`
with at least three distinct x values, it returns slope 2, intercept 3 and
correlation coefficient 1 (display rounding is abstracted away). -/
theorem regress_data_ols_and_linear_series :
    (∀ (x y : List (Option ℚ)),
       x.length = y.length →
       (∀ p ∈ x, p.isSome = true) →
       (∀ p ∈ y, p.isSome = true) →
       ((x.zip y).filter (fun p => p.1.isSome && p.2.isSome)).length = x.length ∧
       ((x.length : ℚ) * (computeSums (x.zip y)).sumx2 - sqr (computeSums (x.zip y)).sumx ≠ 0 →
        (computeSums (x.zip y)).sumy2 - sqr (computeSums (x.zip y)).sumy / (x.length : ℚ) ≠ 0 →
        0 < ((computeSums (x.zip y)).sumx2 - sqr (computeSums (x.zip y)).sumx / (x.length : ℚ)) *
            ((computeSums (x.zip y)).sumy2 - sqr (computeSums (x.zip y)).sumy / (x.length : ℚ)) →
        regress_data x y =
          some (((x.length : ℚ) * (computeSums (x.zip y)).sumxy -
                   (computeSums (x.zip y)).sumx * (computeSums (x.zip y)).sumy) /
                  ((x.length : ℚ) * (computeSums (x.zip y)).sumx2 -
                    sqr (computeSums (x.zip y)).sumx),
                ((computeSums (x.zip y)).sumy * (computeSums (x.zip y)).sumx2 -
                   (computeSums (x.zip y)).sumx * (computeSums (x.zip y)).sumxy) /
                  ((x.length : ℚ) * (computeSums (x.zip y)).sumx2 -
                    sqr (computeSums (x.zip y)).sumx),
                (computeSums (x.zip y)).sumxy -
                  (computeSums (x.zip y)).sumx * (computeSums (x.zip y)).sumy / (x.length : ℚ),
                ((computeSums (x.zip y)).sumx2 -
                   sqr (computeSums (x.zip y)).sumx / (x.length : ℚ)) *
                  ((computeSums (x.zip y)).sumy2 -
                   sqr (computeSums (x.zip y)).sumy / (x.length : ℚ))))) ∧
    (∀ (xs : List ℚ) (a b c : ℚ), a ∈ xs → b ∈ xs → c ∈ xs →
       a ≠ b → a ≠ c → b ≠ c →
       regress_data (xs.map some) (xs.map (fun t => some (2 * t + 3))) =
         some (2, 3,
           2 * (sumsq xs - xs.sum ^ 2 / (xs.length : ℚ)),
           4 * (sumsq xs - xs.sum ^ 2 / (xs.length : ℚ)) ^ 2) ∧
       ((2 * (sumsq xs - xs.sum ^ 2 / (xs.length : ℚ)) : ℚ) : ℝ) /
         Real.sqrt ((4 * (sumsq xs - xs.sum ^ 2 / (xs.length : ℚ)) ^ 2 : ℚ) : ℝ) = 1) := by
  constructor
  · intro x y hxy hx hy
    constructor
    · have hfull : (x.zip y).filter (fun p => p.1.isSome && p.2.isSome) = x.zip y := by
        rw [List.filter_eq_self]
        intro p hp
        rcases p with ⟨p1, p2⟩
        obtain ⟨h1, h2⟩ := List.of_mem_zip hp
        simp [hx p1 h1, hy p2 h2]
      rw [hfull, List.length_zip, hxy, min_self]
    · intro hg1 hg2 hg3
      exact regress_data_eval x y (le_of_eq hxy) hg1 hg2 hg3
  · intro xs a b c hamem hbmem hcmem hab hac hbc
    have hn : 0 < ((xs.length : ℚ)) := by
      have hne : xs ≠ [] := by rintro rfl; simp at hamem
      exact_mod_cast List.length_pos.mpr hne
    have hn0 : ((xs.length : ℚ)) ≠ 0 := ne_of_gt hn
    have hvar : 0 < (xs.length : ℚ) * sumsq xs - xs.sum ^ 2 :=
      var_term_pos xs a b hamem hbmem hab
    have hVeq : sumsq xs - xs.sum ^ 2 / (xs.length : ℚ)
        = ((xs.length : ℚ) * sumsq xs - xs.sum ^ 2) / (xs.length : ℚ) := by
      field_simp
      ring
    have hV : 0 < sumsq xs - xs.sum ^ 2 / (xs.length : ℚ) := by
      rw [hVeq]; exact div_pos hvar hn
    have hlen : (((xs.map some).length : ℕ) : ℚ) = (xs.length : ℚ) := by
      simp
    have hsums := computeSums_linear xs
    -- the three guards of the regression
    have hg1 : ((xs.map some).length : ℚ) *
          (computeSums ((xs.map some).zip (xs.map (fun t => some (2 * t + 3))))).sumx2 -
          sqr (computeSums ((xs.map some).zip (xs.map (fun t => some (2 * t + 3))))).sumx ≠ 0 := by
      rw [hlen, hsums]
      show (xs.length : ℚ) * sumsq xs - sqr xs.sum ≠ 0
      simp only [sqr]
      intro h0
      nlinarith [hvar]
    have hyfac : (4 * sumsq xs + 12 * xs.sum + 9 * (xs.length : ℚ)) -
        sqr (2 * xs.sum + 3 * (xs.length : ℚ)) / (xs.length : ℚ)
        = 4 * (sumsq xs - xs.sum ^ 2 / (xs.length : ℚ)) := by
      simp only [sqr]
      field_simp
      ring
    have hg2 : (computeSums ((xs.map some).zip (xs.map (fun t => some (2 * t + 3))))).sumy2 -
          sqr (computeSums ((xs.map some).zip (xs.map (fun t => some (2 * t + 3))))).sumy /
            ((xs.map some).length : ℚ) ≠ 0 := by
      rw [hlen, hsums]
      show (4 * sumsq xs + 12 * xs.sum + 9 * (xs.length : ℚ)) -
        sqr (2 * xs.sum + 3 * (xs.length : ℚ)) / (xs.length : ℚ) ≠ 0
      rw [hyfac]
      positivity
    have hxfac : sumsq xs - sqr xs.sum / (xs.length : ℚ)
        = sumsq xs - xs.sum ^ 2 / (xs.length : ℚ) := by
      simp only [sqr]
      ring
    have hg3 : 0 <
        ((computeSums ((xs.map some).zip (xs.map (fun t => some (2 * t + 3))))).sumx2 -
          sqr (computeSums ((xs.map some).zip (xs.map (fun t => some (2 * t + 3))))).sumx /
            ((xs.map some).length : ℚ)) *
        ((computeSums ((xs.map some).zip (xs.map (fun t => some (2 * t + 3))))).sumy2 -
          sqr (computeSums ((xs.map some).zip (xs.map (fun t => some (2 * t + 3))))).sumy /
            ((xs.map some).length : ℚ)) := by
      rw [hlen, hsums]
      show 0 < (sumsq xs - sqr xs.sum / (xs.length : ℚ)) *
        ((4 * sumsq xs + 12 * xs.sum + 9 * (xs.length : ℚ)) -
          sqr (2 * xs.sum + 3 * (xs.length : ℚ)) / (xs.length : ℚ))
      rw [hyfac, hxfac]
      positivity
    have heval := regress_data_eval (xs.map some) (xs.map (fun t => some (2 * t + 3)))
      (by simp) hg1 hg2 hg3
    rw [hlen, hsums] at heval
    constructor
    · rw [heval]
      show some ((((xs.length : ℚ) * (2 * sumsq xs + 3 * xs.sum) -
            xs.sum * (2 * xs.sum + 3 * (xs.length : ℚ))) /
            ((xs.length : ℚ) * sumsq xs - sqr xs.sum)),
          (((2 * xs.sum + 3 * (xs.length : ℚ)) * sumsq xs -
            xs.sum * (2 * sumsq xs + 3 * xs.sum)) /
            ((xs.length : ℚ) * sumsq xs - sqr xs.sum)),
          ((2 * sumsq xs + 3 * xs.sum) -
            xs.sum * (2 * xs.sum + 3 * (xs.length : ℚ)) / (xs.length : ℚ)),
          ((sumsq xs - sqr xs.sum / (xs.length : ℚ)) *
            ((4 * sumsq xs + 12 * xs.sum + 9 * (xs.length : ℚ)) -
              sqr (2 * xs.sum + 3 * (xs.length : ℚ)) / (xs.length : ℚ)))) = _
      simp only [sqr]
      have hd : (xs.length : ℚ) * sumsq xs - xs.sum * xs.sum ≠ 0 := by
        intro h0; nlinarith [hvar]
      congr 1
      refine Prod.ext ?_ (Prod.ext ?_ (Prod.ext ?_ ?_)) <;> simp only []
      · rw [div_eq_iff hd]; ring
      · rw [div_eq_iff hd]; ring
      · field_simp; ring
      · field_simp; ring
    · have hVR : (0 : ℝ) < ((sumsq xs - xs.sum ^ 2 / (xs.length : ℚ) : ℚ) : ℝ) := by
        exact_mod_cast hV
      have hcast : ((4 * (sumsq xs - xs.sum ^ 2 / (xs.length : ℚ)) ^ 2 : ℚ) : ℝ)
          = (2 * ((sumsq xs - xs.sum ^ 2 / (xs.length : ℚ) : ℚ) : ℝ)) ^ 2 := by
        push_cast
        ring
      rw [hcast, Real.sqrt_sq (by positivity)]
      have h2 : ((2 * (sumsq xs - xs.sum ^ 2 / (xs.length : ℚ)) : ℚ) : ℝ)
          = 2 * ((sumsq xs - xs.sum ^ 2 / (xs.length : ℚ) : ℚ) : ℝ) := by
        push_cast
        ring
      rw [h2]
      exact div_self (by positivity)

/-- C6 witness: the series x = [0,1,2], y = [3,5,7] (on y = 2x+3). -/
theorem regress_data_ols_and_linear_series_witness :
    regress_data ([(0 : ℚ), 1, 2].map some)
        ([(0 : ℚ), 1, 2].map (fun t => some (2 * t + 3))) =
      some (2, 3,
        2 * (sumsq [(0 : ℚ), 1, 2] - [(0 : ℚ), 1, 2].sum ^ 2 / (([(0 : ℚ), 1, 2].length : ℕ) : ℚ)),
        4 * (sumsq [(0 : ℚ), 1, 2] - [(0 : ℚ), 1, 2].sum ^ 2 / (([(0 : ℚ), 1, 2].length : ℕ) : ℚ)) ^ 2) ∧
    ((2 * (sumsq [(0 : ℚ), 1, 2] - [(0 : ℚ), 1, 2].sum ^ 2 / (([(0 : ℚ), 1, 2].length : ℕ) : ℚ)) : ℚ) : ℝ) /
      Real.sqrt ((4 * (sumsq [(0 : ℚ), 1, 2] - [(0 : ℚ), 1, 2].sum ^ 2 / (([(0 : ℚ), 1, 2].length : ℕ) : ℚ)) ^ 2 : ℚ) : ℝ) = 1 :=
  regress_data_ols_and_linear_series.2 [(0 : ℚ), 1, 2] 0 1 2
    (by simp) (by simp) (by simp) (by norm_num) (by norm_num) (by norm_num)

/-! ### Report-destination failure handling
     (`open_logfile` lines 503-511, `open_tmpfile` 524-529,
      `open_summaryfile` 538-543, remote log-mirror writes at
      lines 1817-1825 (monitor loop) and 1947-1955 (single mode))

Whether an `IOError` is raised at a destination is an environmental fact;
it enters the model as a boolean.  What is embedded is the handler's
control flow, which the source does not branch on the mode. -/

/-- The continuation after touching a report destination. -/
inductive RunOutcome
  | continues
  | exits (code : Nat)
deriving DecidableEq, Repr

/-- Source `open_logfile`: on `IOError` it prints a diagnostic and runs
`sys.exit(1)` — the same in single-report and monitor mode (the function
has no mode branch, and the monitor loop calls it at line 1786). -/
def open_logfile_outcome (_monitor : Bool) (openFails : Bool) : RunOutcome :=
  if openFails then .exits 1 else .continues

/-- Source `open_tmpfile`: `sys.exit(1)` on `IOError`, in either mode. -/
def open_tmpfile_outcome (_monitor : Bool) (openFails : Bool) : RunOutcome :=
  if openFails then .exits 1 else .continues

/-- Source `open_summaryfile`: `sys.exit(1)` on `IOError`, in either mode. -/
def open_summaryfile_outcome (_monitor : Bool) (openFails : Bool) : RunOutcome :=
  if openFails then .exits 1 else .continues

/-- The remote log-mirror write: on `IOError` the monitor loop logs
`"Failed to copy logfile into logserver directory."` and runs
`sys.exit(0)` (lines 1822-1824); single mode prints the same message and
runs `sys.exit(0)` (lines 1952-1954).  Both modes terminate the process. -/
def mirror_write_outcome (_monitor : Bool) (writeFails : Bool) : RunOutcome :=
  if writeFails then .exits 0 else .continues

/-- C8 counterexample: in daemon (monitor) mode a log-open failure and a
mirror-write failure both terminate the process instead of letting the
loop continue, contradicting the claim that in daemon mode the
destination is skipped and the loop keeps running. -/
theorem daemon_destination_failure_counterexample :
    open_logfile_outcome true true ≠ RunOutcome.continues ∧
    mirror_write_outcome true true ≠ RunOutcome.continues := by
  decide

/-- C8 (amended): a report-destination failure is fatal in *both* modes:
log/tmp/summary open failures exit with status 1 after a diagnostic, and
remote-mirror write failures exit with status 0 after the message is
printed (single mode) or logged (daemon mode); the daemon loop never
survives the failure, and without a failure execution continues. -/
theorem destination_failure_always_exits (monitor : Bool) :
    open_logfile_outcome monitor true = .exits 1 ∧
    open_tmpfile_outcome monitor true = .exits 1 ∧
    open_summaryfile_outcome monitor true = .exits 1 ∧
    mirror_write_outcome monitor true = .exits 0 ∧
    open_logfile_outcome monitor false = .continues ∧
    open_tmpfile_outcome monitor false = .continues ∧
    open_summaryfile_outcome monitor false = .continues ∧
    mirror_write_outcome monitor false = .continues := by
  cases monitor <;> decide

/-! ### Single-instance pid-marker enforcement (`manage_pid_file`, lines 1067-1106)

The program runs `manage_pid_file("check")` (line 1555) before any check,
then `manage_pid_file("start")` (line 1862, or 1674 in monitor mode)
before the check loop.  `alive pid` models `ps -j <pid>` succeeding. -/

/-- The pid-marker file `/var/run/check_cluster.pid`: `some s` is the file
present with contents `s`. -/
structure PidFs where
  pidfile : Option String
deriving DecidableEq, Repr

/-- The result of one pid-management step: proceed with the (possibly
updated) filesystem, or `sys.exit(code)` leaving the filesystem as is. -/
inductive PidStep
  | proceed (fs : PidFs)
  | exited (code : Nat) (fs : PidFs)
deriving DecidableEq, Repr

/-- Mode "check" of `manage_pid_file`: a marker naming a live process causes
`sys.exit(0)` ("Found existing process. Exiting.") with the marker left in
place; a stale marker is unlinked ("Deleting invalid pid file.") and the
program proceeds. -/
def manage_pid_file_check (alive : String → Bool) (fs : PidFs) : PidStep :=
  match fs.pidfile with
  | none => .proceed fs
  | some pid => if alive pid then .exited 0 fs else .proceed ⟨none⟩

/-- Mode "start" of `manage_pid_file`: an existing marker causes `sys.exit(0)`;
otherwise the current pid is written (a failing `echo` is
`sys.exit(1)`). -/
def manage_pid_file_start (currentPid : String) (echoFails : Bool) (fs : PidFs) : PidStep :=
  match fs.pidfile with
  | some _ => .exited 0 fs
  | none => if echoFails then .exited 1 fs else .proceed ⟨some currentPid⟩

/-- The startup sequence: "check" then — only if it proceeded — "start";
the checks themselves run only after both. -/
def pid_startup (alive : String → Bool) (currentPid : String) (echoFails : Bool)
    (fs : PidFs) : PidStep :=
  match manage_pid_file_check alive fs with
  | .exited c fs2 => .exited c fs2
  | .proceed fs2 => manage_pid_file_start currentPid echoFails fs2

/-- C9: starting while the pid marker names a live process refuses to run
(the process exits in the "check" phase, before any check) and leaves the
marker unmodified; starting while the marker names a dead process deletes
the stale marker and proceeds, the marker then holding the current pid. -/
theorem pid_single_instance_enforcement (alive : String → Bool) (cur p : String) :
    (alive p = true →
       manage_pid_file_check alive ⟨some p⟩ = .exited 0 ⟨some p⟩ ∧
       pid_startup alive cur false ⟨some p⟩ = .exited 0 ⟨some p⟩) ∧
    (alive p = false →
       manage_pid_file_check alive ⟨some p⟩ = .proceed ⟨none⟩ ∧
       pid_startup alive cur false ⟨some p⟩ = .proceed ⟨some cur⟩) := by
  constructor
  · intro hlive
    have hc : manage_pid_file_check alive ⟨some p⟩ = .exited 0 ⟨some p⟩ := by
      simp [manage_pid_file_check, hlive]
    exact ⟨hc, by simp [pid_startup, hc]⟩
  · intro hdead
    have hc : manage_pid_file_check alive ⟨some p⟩ = .proceed ⟨none⟩ := by
      simp [manage_pid_file_check, hdead]
    refine ⟨hc, ?_⟩
    simp [pid_startup, hc, manage_pid_file_start]

/-- C9 witness: both branches at concrete pids. -/
theorem pid_single_instance_enforcement_witness :
    pid_startup (fun _ => true) "99" false ⟨some "123"⟩ = .exited 0 ⟨some "123"⟩ ∧
    pid_startup (fun _ => false) "99" false ⟨some "123"⟩ = .proceed ⟨some "99"⟩ :=
  ⟨((pid_single_instance_enforcement (fun _ => true) "99" "123").1 rfl).2,
   ((pid_single_instance_enforcement (fun _ => false) "99" "123").2 rfl).2⟩
